import Mathlib

/-!
Shallow embedding of `get-license-helper` (src/main.rs), a batch utility that
downloads license files for dependencies listed in a `cargo-license --json`
report.  Rust strings are modelled as `List Char` (`Str`); the filesystem is a
map from paths to optional file contents; the network is an oracle mapping a
URL to a response.  Every definition mirrors the corresponding place in the
Rust source; deviations forced by the embedding (fuel for two loops whose
termination is by string length, ASCII-only lower-casing) are noted inline.
-/

set_option autoImplicit false

namespace GLH

/-- Rust `&str` / `String`, modelled as a list of characters. -/
abbrev Str := List Char

/-- Rust `str::to_lowercase`.  The Rust version is Unicode-aware; every string
it is applied to in this program is ASCII, for which `Char.toLower` agrees. -/
def lower (s : Str) : Str := s.map Char.toLower

/-- Rust `str::starts_with` on string patterns. -/
def hasPre : Str → Str → Bool
  | [], _ => true
  | _ :: _, [] => false
  | p :: ps, c :: cs => p == c && hasPre ps cs

/-- Rust `str::ends_with` on string patterns. -/
def hasSuffix (pat s : Str) : Bool := hasPre pat.reverse s.reverse

/-- Rust `str::strip_prefix`: `some` of the remainder when the prefix
matches, else `none`. -/
def stripPre : Str → Str → Option Str
  | [], s => some s
  | _ :: _, [] => none
  | p :: ps, c :: cs => if p == c then stripPre ps cs else none

/-- One step per unit of fuel of Rust `str::trim_end_matches`: repeatedly
strip the pattern from the end.  Each strip removes `pat.length ≥ 1`
characters, so fuel `s.length + 1` (see `trimEnd`) is always sufficient. -/
def trimEndFuel (pat : Str) : Nat → Str → Str
  | 0, s => s
  | fuel + 1, s =>
    if !pat.isEmpty && hasSuffix pat s then
      trimEndFuel pat fuel (s.take (s.length - pat.length))
    else s

/-- Rust `str::trim_end_matches` (for a non-empty pattern). -/
def trimEnd (pat s : Str) : Str := trimEndFuel pat (s.length + 1) s

/-- Rust `str::split_once`: split around the first occurrence of the
pattern, returning the parts before and after it. -/
def splitOnce (pat : Str) : Str → Option (Str × Str)
  | [] => none
  | c :: cs =>
    if hasPre pat (c :: cs) then some ([], (c :: cs).drop pat.length)
    else
      match splitOnce pat cs with
      | some (a, b) => some (c :: a, b)
      | none => none

/-- One split per unit of fuel of Rust `str::split`.  Each split consumes at
least `pat.length ≥ 1` characters, so fuel `s.length + 1` (see `splitAll`)
is always sufficient. -/
def splitAllFuel (pat : Str) : Nat → Str → List Str
  | 0, s => [s]
  | fuel + 1, s =>
    match splitOnce pat s with
    | some (a, b) => a :: splitAllFuel pat fuel b
    | none => [s]

/-- Rust `str::split` (for a non-empty pattern), collected into a list. -/
def splitAll (pat s : Str) : List Str := splitAllFuel pat (s.length + 1) s

/-! String literals appearing in the source, bound once as named constants. -/

/-- Literal `".git"`. -/
def gitSuf : Str := ".git".data

/-- Literal `"https://gitlab."`. -/
def glPre : Str := "https://gitlab.".data

/-- Literal `"https://github.com/"`. -/
def ghPre : Str := "https://github.com/".data

/-- Literal `"https://raw.githubusercontent.com/"` (the prefix produced by
the two `format!("https://raw.githubusercontent.com/{}", ..)` calls). -/
def rawGH : Str := "https://raw.githubusercontent.com/".data

/-- Literal slash-dash-slash-raw, the suffix appended to a GitLab repo URL
by the gitlab branch of `from_repo_url`. -/
def rawSeg : Str := "/-/raw".data

/-- Literal `"/tree/master/"`. -/
def treeMaster : Str := "/tree/master/".data

/-- Literal `"/"` used when joining path / URL segments. -/
def slash : Str := "/".data

/-- Literal `"-"` used in the output filename `{name}-{license[0]}`. -/
def dash : Str := "-".data

/-- Literal `".txt"`. -/
def txtExt : Str := ".txt".data

/-- Literal `".md"`. -/
def mdExt : Str := ".md".data

/-- Literal `" OR "`, the separator of license alternatives. -/
def orSep : Str := " OR ".data

/-- Literal `"master"`. -/
def masterRef : Str := "master".data

/-- Literal `"main"`. -/
def mainRef : Str := "main".data

/-- Literal `"Unlicense"`. -/
def unlicenseS : Str := "Unlicense".data

/-- Literal `"Apache-2.0"`. -/
def apacheS : Str := "Apache-2.0".data

/-- `struct RawFilesURL` from the source. -/
structure RawFilesURL where
  base : Str
  subdirectory : Option Str
deriving DecidableEq

/-- `RawFilesURL::from_repo_url` from the source.  The two
`strip_prefix(..).unwrap()` calls are modelled with `Option.getD []`; in
every reachable case of this program the prefix is present, so the default
is never used where a claim depends on it. -/
def RawFilesURL.fromRepoUrl (repoUrl : Str) : Option RawFilesURL :=
  let r := trimEnd gitSuf repoUrl
  if hasPre glPre r then
    some ⟨r ++ rawSeg, none⟩
  else if hasPre ghPre r then
    match splitOnce treeMaster r with
    | some (pre, path) => some ⟨rawGH ++ (stripPre ghPre pre).getD [], some path⟩
    | none => some ⟨rawGH ++ (stripPre ghPre r).getD [], none⟩
  else none

/-- `RawFilesURL::format` from the source. -/
def RawFilesURL.format (u : RawFilesURL) (version fname : Str) : Str :=
  match u.subdirectory with
  | some sub => u.base ++ slash ++ version ++ slash ++ sub ++ slash ++ fname
  | none => u.base ++ slash ++ version ++ slash ++ fname

/-! The static license tables (the `const` arrays at the top of the source). -/

/-- `const DEFAULT: [&str; 2]`. -/
def DEFAULT : List Str := [ "LICENSE".data, "LICENCE".data]

/-- `const APACHE: [&str; 6]`. -/
def APACHE : List Str :=
  [ "LICENSE-APACHE".data, "LICENSE-Apache".data, "License-Apache-2.0".data,
   "LICENCE-APACHE".data, "LICENCE-Apache".data, "Licence-Apache-2.0".data]

/-- `const BSD2: [&str; 2]`. -/
def BSD2 : List Str := [ "LICENSE-BSD".data, "LICENCE-BSD".data]

/-- `const BSD3: [&str; 2]`. -/
def BSD3 : List Str := [ "LICENSE-BSD".data, "LICENCE-BSD".data]

/-- `const BSL: [&str; 4]`. -/
def BSL : List Str :=
  [ "LICENSE-BOOST".data, "LICENSE-BST".data, "LICENCE-BOOST".data, "LICENCE-BST".data]

/-- `const CC0: [&str; 2]`. -/
def CC0 : List Str := [ "LICENSE".data, "LICENCE".data]

/-- `const ISC: [&str; 2]`. -/
def ISC : List Str := [ "LICENSE-ISC".data, "LICENCE-ISC".data]

/-- `const MIT: [&str; 2]`. -/
def MIT : List Str := [ "LICENSE-MIT".data, "LICENCE-MIT".data]

/-- `const MPL_2: [&str; 2]`. -/
def MPL_2 : List Str := [ "LICENSE".data, "LICENCE".data]

/-- `const ZERO_BSD: [&str; 2]`. -/
def ZERO_BSD : List Str := [ "LICENSE-0BSD".data, "LICENCE-0BSD".data]

/-- `const ZLIB: [&str; 2]`. -/
def ZLIB : List Str := [ "LICENSE-ZLIB".data, "LICENCE-ZLIB".data]

/-- `struct Elem`, one record of the input report. -/
structure Elem where
  name : Str
  version : Option Str
  repository : Option Str
  license : Option Str
  license_file : Option Str
deriving DecidableEq

/-- Response of one blocking GET: a success status with a body, a non-success
HTTP status, or a transport-level `reqwest` error (the `?` in the source). -/
inductive NetResp where
  | success (body : Str)
  | httpFailure
  | transportError
deriving DecidableEq

/-- The network, as a deterministic oracle from URL to response. -/
abbrev Net := Str → NetResp

/-- The filesystem: each path maps to `some` contents or `none` (absent).
`local_path.is_file() && fs::metadata(..).len() > 0` corresponds to the file
being present with non-empty contents. -/
abbrev FS := Str → Option Str

/-- Write `body` at path `p` (Rust `File::create` + `Response::copy_to`). -/
def setFile (fs : FS) (p body : Str) : FS :=
  fun q => if q = p then some body else fs q

/-- Outcome of the candidate/ref double loop in `get_license`: a body was
found, all combinations were exhausted, or a transport error occurred. -/
inductive LoopOut where
  | found (body : Str)
  | exhausted
  | err
deriving DecidableEq

/-- `true` exactly on `LoopOut.found`. -/
def LoopOut.isFound : LoopOut → Bool
  | .found _ => true
  | _ => false

/-- The inner `for version in versions.iter()` loop of `get_license` for one
candidate filename: returns the loop outcome and the URLs requested, in
order.  A success or a transport error stops the loop at once. -/
def tryVersions (net : Net) (base : RawFilesURL) (fname : Str) :
    List Str → LoopOut × List Str
  | [] => (.exhausted, [])
  | v :: vs =>
    match net (base.format v fname) with
    | .success b => (.found b, [base.format v fname])
    | .httpFailure =>
      let r := tryVersions net base fname vs
      (r.1, base.format v fname :: r.2)
    | .transportError => (.err, [base.format v fname])

/-- The outer `'outer: for license_name in license_names` loop of
`get_license`: a found body or a transport error propagates immediately
(`break 'outer` and `?` respectively). -/
def tryNames (net : Net) (base : RawFilesURL) (versions : List Str) :
    List Str → LoopOut × List Str
  | [] => (.exhausted, [])
  | n :: ns =>
    match tryVersions net base n versions with
    | (.found b, rs) => (.found b, rs)
    | (.err, rs) => (.err, rs)
    | (.exhausted, rs) =>
      let r := tryNames net base versions ns
      (r.1, rs ++ r.2)

/-- The six variants generated for one candidate base name by the
`map(|l| vec![..]).flatten()` in `get_license`, in source order. -/
def variants (l : Str) : List Str :=
  [l, l ++ txtExt, l ++ mdExt, lower l, lower l ++ txtExt, lower l ++ mdExt]

/-- The full candidate-name expansion of `get_license` (lines 74-93): start
from the provided list, append `DEFAULT` unless the list already equals
`DEFAULT`, then expand each name into its six variants. -/
def expandNames (license : List Str) : List Str :=
  let names := if license = DEFAULT then license else license ++ DEFAULT
  (names.map variants).flatten

/-- The ref list of `get_license` (lines 95-99): the declared version first
when present, then the fixed fallback branches `master` and `main`. -/
def versionsOf (e : Elem) : List Str :=
  match e.version with
  | some v => [v, masterRef, mainRef]
  | none => [masterRef, mainRef]

/-- `output_dir.join(format!("{}-{}", elem.name, license[0]))`. -/
def localPathOf (e : Elem) (license : List Str) (dir : Str) : Str :=
  dir ++ slash ++ e.name ++ dash ++ license.headD []

/-- The short-circuit test of `get_license` line 70: the output file exists
and has non-zero size. -/
def alreadyB (fs : FS) (p : Str) : Bool :=
  match fs p with
  | some b => !b.isEmpty
  | none => false

/-- The success report `println!("    - {}", local_path..)`. -/
def successLine (p : Str) : Str := "    - ".data ++ p

/-- The not-found report of `get_license` lines 113-119 (its
`elem.repository.as_ref().unwrap()` is modelled with `Option.getD []`). -/
def notFoundLine (e : Elem) (license : List Str) : Str :=
  license.headD [] ++ " not found for crate ".data ++ e.name ++
    ". See repo: ".data ++ e.repository.getD []

/-- Result of one `get_license` call: the URLs requested in order, the
filesystem afterwards, the console lines printed, whether the call returned
`Ok` (`ok = false` means a transport error escaped via `?`), and the final
value of the `success` flag. -/
structure GLOut where
  requests : List Str
  fs : FS
  lines : List Str
  ok : Bool
  satisfied : Bool

/-- `fn get_license` from the source (directory creation and local I/O
errors other than the modelled file states are elided). -/
def get_license (net : Net) (e : Elem) (base : RawFilesURL)
    (license : List Str) (dir : Str) (fs : FS) : GLOut :=
  let p := localPathOf e license dir
  if alreadyB fs p then
    ⟨[], fs, [successLine p], true, true⟩
  else
    match tryNames net base (versionsOf e) (expandNames license) with
    | (.found b, rs) => ⟨rs, setFile fs p b, [successLine p], true, true⟩
    | (.exhausted, rs) => ⟨rs, fs, [notFoundLine e license], true, false⟩
    | (.err, rs) => ⟨rs, fs, [], false, false⟩

/-- What the `match l { .. }` over one license alternative in `main`
(lines 206-232) does: call `get_license` with a table, do nothing
(`"Unlicense"`), or print the not-implemented line. -/
inductive Action where
  | fetch (names : List Str)
  | noop
  | notImpl
deriving DecidableEq

/-- The `match l` dispatch of `main`, arm for arm and in arm order,
including the `_ if l.starts_with("Apache-2.0")` guard arm. -/
def classify (l : Str) : Action :=
  if l = apacheS ∨ l = "Apache-2.0 WITH LLVM-exception".data then .fetch APACHE
  else if l = "MIT".data then .fetch MIT
  else if l = "BSD-3-Clause".data then .fetch BSD3
  else if l = "BSD-2-Clause".data then .fetch BSD2
  else if l = "0BSD".data then .fetch ZERO_BSD
  else if l = "CC0-1.0".data then .fetch CC0
  else if l = "MPL-2.0".data then .fetch MPL_2
  else if l = "BSD".data then .fetch BSD3
  else if l = "ISC".data then .fetch ISC
  else if l = "BSL-1.0".data then .fetch BSL
  else if l = "Zlib".data then .fetch ZLIB
  else if l = unlicenseS then .noop
  else if hasPre apacheS l then .fetch APACHE
  else .notImpl

/-- The identifier-to-filename mapping induced by `classify`: `some` table
for the identifiers that lead to a `get_license` call, `none` otherwise
(`"Unlicense"` maps to no table: it triggers no fetch). -/
def licenseTable (l : Str) : Option (List Str) :=
  match classify l with
  | .fetch ns => some ns
  | _ => none

/-- The not-implemented report `println!("Not implemented: license: .., see repo: ..")`. -/
def notImplLine (l repoUrl : Str) : Str :=
  "Not implemented: license: ".data ++ l ++ ", see repo: ".data ++ repoUrl

/-- Aggregate outcome of a piece of `main`: the `get_license` calls made
(table passed and final `success` flag of each), the filesystem, the URLs
requested, the console lines, and whether a transport error escaped. -/
structure RunOut where
  calls : List (List Str × Bool)
  fs : FS
  requests : List Str
  lines : List Str
  err : Bool

/-- The `for l in license.split(" OR ")` loop of `main`: each alternative is
classified and acted on in written order; a transport error escaping a
`get_license` call (`?`) aborts the remaining alternatives. -/
def runAlts (net : Net) (e : Elem) (base : RawFilesURL) (repoUrl dir : Str) :
    List Str → FS → RunOut
  | [], fs => ⟨[], fs, [], [], false⟩
  | l :: ls, fs =>
    match classify l with
    | .fetch names =>
      let g := get_license net e base names dir fs
      if g.ok then
        let t := runAlts net e base repoUrl dir ls g.fs
        ⟨(names, g.satisfied) :: t.calls, t.fs, g.requests ++ t.requests,
          g.lines ++ t.lines, t.err⟩
      else ⟨[(names, g.satisfied)], g.fs, g.requests, g.lines, true⟩
    | .noop => runAlts net e base repoUrl dir ls fs
    | .notImpl =>
      let t := runAlts net e base repoUrl dir ls fs
      ⟨t.calls, t.fs, t.requests, notImplLine l repoUrl :: t.lines, t.err⟩

/-- The `repo_url` binding of `main`: the repository field, or the
`"No repo for crate {}!"` fallback when it is absent. -/
def repoUrlOf (e : Elem) : Str :=
  match e.repository with
  | some r => r
  | none => "No repo for crate ".data ++ e.name ++ "!".data

/-- The per-dependency body of `main`'s `for e in dependencies` loop. -/
def processElem (net : Net) (dir : Str) (e : Elem) (fs : FS) : RunOut :=
  let repoUrl := repoUrlOf e
  match RawFilesURL.fromRepoUrl repoUrl with
  | some base =>
    match e.license with
    | some lic => runAlts net e base repoUrl dir (splitAll orSep lic) fs
    | none =>
      match e.license_file with
      | some lf =>
        let g := get_license net e base [lf] dir fs
        ⟨[([lf], g.satisfied)], g.fs, g.requests, g.lines, !g.ok⟩
      | none =>
        let g := get_license net e base DEFAULT dir fs
        ⟨[(DEFAULT, g.satisfied)], g.fs, g.requests, g.lines, !g.ok⟩
  | none => ⟨[], fs, [], [ "Unfamiliar repository URL: ".data ++ repoUrl], false⟩

/-- The whole `for e in dependencies` loop of `main`: dependencies are
processed in order; a transport error escaping `processElem` (the `?` on
each `get_license` call) aborts every remaining dependency and makes `main`
return `Err`, i.e. the process exits non-zero (`err = true`). -/
def mainRun (net : Net) (dir : Str) : List Elem → FS → RunOut
  | [], fs => ⟨[], fs, [], [], false⟩
  | e :: es, fs =>
    let r := processElem net dir e fs
    if r.err then ⟨r.calls, r.fs, r.requests, r.lines, true⟩
    else
      let t := mainRun net dir es r.fs
      ⟨r.calls ++ t.calls, t.fs, r.requests ++ t.requests, r.lines ++ t.lines, t.err⟩

/-- The ten tables that can reach `get_license` through the license-identifier
dispatch of `main` (every `.fetch` result of `classify`). -/
def tablesRange : List (List Str) :=
  [MIT, BSD3, BSD2, ZERO_BSD, CC0, MPL_2, ISC, BSL, ZLIB, APACHE]

/-- Invariant relating the filesystem `fs` reached during the alternative
loop to the filesystem `fs0` the loop started from: each output path of a
dispatchable table is either untouched or holds the body that the
candidate/ref scan for that same table finds. -/
def ScanInv (net : Net) (e : Elem) (base : RawFilesURL) (dir : Str)
    (fs0 fs : FS) : Prop :=
  ∀ ns ∈ tablesRange,
    fs (localPathOf e ns dir) = fs0 (localPathOf e ns dir) ∨
    ∃ b, (tryNames net base (versionsOf e) (expandNames ns)).1 = .found b ∧
      fs (localPathOf e ns dir) = some b

/-! Concrete fixtures used by witness and counterexample theorems. -/

/-- An empty filesystem. -/
def fs0 : FS := fun _ => none

/-- A network on which every request returns a non-success HTTP status. -/
def netFail : Net := fun _ => NetResp.httpFailure

/-- A network on which every request raises a transport error. -/
def netDown : Net := fun _ => NetResp.transportError

/-- A network on which every request succeeds with body `['m']`. -/
def netUp : Net := fun _ => NetResp.success ['m']

/-- Fixture output directory. -/
def licDir : Str := "library_licenses".data

/-- Fixture repository URL `https://github.com/foo/bar`. -/
def ghFooBar : Str := "https://github.com/foo/bar".data

/-- Fixture repository URL with a twice-repeated `.git` suffix. -/
def ghFooBarGitGit : Str := "https://github.com/foo/bar.git.git".data

/-- Fixture monorepo URL with a `tree/master` segment. -/
def ghTreeMasterSub : Str := "https://github.com/foo/bar/tree/master/sub".data

/-- Fixture monorepo URL whose tree segment names the branch `main`. -/
def ghTreeMainSub : Str := "https://github.com/foo/bar/tree/main/sub".data

/-- Raw-file base for `foo/bar`. -/
def rawFooBar : Str := "https://raw.githubusercontent.com/foo/bar".data

/-- What `from_repo_url` actually produces for `ghTreeMainSub`. -/
def rawFooBarTreeMain : Str :=
  "https://raw.githubusercontent.com/foo/bar/tree/main/sub".data

/-- Fixture subdirectory `sub`. -/
def subS : Str := "sub".data

/-- Fixture resolved location for `foo/bar` with no subdirectory. -/
def baseFooBar : RawFilesURL := ⟨rawFooBar, none⟩

/-- Fixture candidate base name `LICENSE`. -/
def licenseName : Str := "LICENSE".data

/-- Fixture unknown license identifier `Foo-9.9`. -/
def fooNine : Str := "Foo-9.9".data

/-- Fixture license identifier `MIT`. -/
def mitS : Str := "MIT".data

/-- Fixture license expression `MIT OR Zlib`. -/
def licMITZlib : Str := "MIT OR Zlib".data

/-- Fixture dependency: GitHub repo, license `MIT`. -/
def eMIT : Elem := ⟨['x'], none, some ghFooBar, some mitS, none⟩

/-- Fixture dependency: GitHub repo, license `MIT OR Zlib`. -/
def eMITZ : Elem := ⟨['x'], none, some ghFooBar, some licMITZlib, none⟩

/-- Fixture dependency: GitHub repo, no license, no license file. -/
def eBareGH : Elem := ⟨['x'], none, some ghFooBar, none, none⟩

/-! Helper lemmas about the string model. -/

theorem hasPre_length {p s : Str} (h : hasPre p s = true) : p.length ≤ s.length := by
  induction p generalizing s with
  | nil => simp
  | cons a ps ih =>
    cases s with
    | nil => simp [hasPre] at h
    | cons b cs =>
      simp only [hasPre, Bool.and_eq_true] at h
      have := ih h.2
      simp only [List.length_cons]
      omega

theorem hasSuffix_length {p s : Str} (h : hasSuffix p s = true) :
    p.length ≤ s.length := by
  have := hasPre_length (p := p.reverse) (s := s.reverse) h
  simpa using this

theorem trimEnd_of_not_suffix {pat s : Str} (h : hasSuffix pat s = false) :
    trimEnd pat s = s := by
  unfold trimEnd trimEndFuel
  simp [h]

theorem trimEndFuel_no_suffix {pat : Str} (hp : pat ≠ []) :
    ∀ (fuel : Nat) (s : Str), s.length < fuel →
      hasSuffix pat (trimEndFuel pat fuel s) = false := by
  intro fuel
  induction fuel with
  | zero => intro s hs; omega
  | succ f ih =>
    intro s hs
    cases h : hasSuffix pat s with
    | false =>
      rw [trimEndFuel]
      simp only [h, Bool.and_false, if_neg Bool.false_ne_true]
    | true =>
      have hpe : pat.isEmpty = false := by
        cases pat with
        | nil => exact absurd rfl hp
        | cons a l => rfl
      have hplen : 0 < pat.length := by
        cases pat with
        | nil => exact absurd rfl hp
        | cons a l => simp
      have hlen : pat.length ≤ s.length := hasSuffix_length h
      rw [trimEndFuel]
      simp only [hpe, h, Bool.not_false, Bool.true_and, if_pos rfl]
      apply ih
      simp only [List.length_take]
      omega

theorem trimEnd_trimEnd {pat : Str} (hp : pat ≠ []) (s : Str) :
    trimEnd pat (trimEnd pat s) = trimEnd pat s :=
  trimEnd_of_not_suffix
    (trimEndFuel_no_suffix hp (s.length + 1) s (Nat.lt_succ_self _))

/-- Claim C1: when the output file `{name}-{license[0]}` already exists with
non-zero size, `get_license` issues no network request, leaves the
filesystem unchanged, and reports the dependency as satisfied. -/
theorem c1_existing_nonempty_file_short_circuits
    (net : Net) (e : Elem) (base : RawFilesURL) (license : List Str)
    (dir : Str) (fs : FS) (b : Str)
    (hb : fs (localPathOf e license dir) = some b) (hne : b ≠ []) :
    get_license net e base license dir fs =
      ⟨[], fs, [ successLine (localPathOf e license dir)], true, true⟩ := by
  have ha : alreadyB fs (localPathOf e license dir) = true := by
    unfold alreadyB
    rw [hb]
    cases b with
    | nil => exact absurd rfl hne
    | cons c cs => rfl
  unfold get_license
  simp [ha]

/-- Witness for C1: a concrete filesystem holding a one-byte file at the
output path; `get_license` leaves it alone and requests nothing. -/
theorem c1_witness :
    (setFile fs0 (localPathOf eBareGH [ licenseName] licDir) ['m'])
        (localPathOf eBareGH [ licenseName] licDir) = some ['m'] ∧
    (['m'] : Str) ≠ [] ∧
    get_license netFail eBareGH baseFooBar [ licenseName] licDir
        (setFile fs0 (localPathOf eBareGH [ licenseName] licDir) ['m']) =
      ⟨[], setFile fs0 (localPathOf eBareGH [ licenseName] licDir) ['m'],
        [ successLine (localPathOf eBareGH [ licenseName] licDir)], true, true⟩ :=
  ⟨by decide, by decide,
    c1_existing_nonempty_file_short_circuits netFail eBareGH baseFooBar
      [ licenseName] licDir _ ['m'] (by decide) (by decide)⟩

/-- Claim C3 (counterexample): the URL
`https://github.com/foo/bar/tree/main/sub` embeds a
tree/default-branch/subpath segment (default branch `main`), yet the
resolver does not extract the subpath: the subdirectory is `none` and the
raw-file base is not the repository root `https://raw.githubusercontent.com/foo/bar`
but carries the whole `tree/main/sub` tail. -/
theorem c3_counterexample :
    RawFilesURL.fromRepoUrl ghTreeMainSub = some ⟨rawFooBarTreeMain, none⟩ ∧
    rawFooBarTreeMain ≠ rawFooBar := by decide

/-- Claim C3 (amended): only a `tree` segment naming the literal branch
`master` is extracted: `https://github.com/foo/bar/tree/master/sub`
resolves to base `https://raw.githubusercontent.com/foo/bar` with
subdirectory `sub`. -/
theorem c3_tree_master_extracted :
    RawFilesURL.fromRepoUrl ghTreeMasterSub = some ⟨rawFooBar, some subS⟩ := by
  decide

/-- Claim C10: the resolver strips every repeated trailing `.git` occurrence
(trim semantics) before host matching, on all inputs: resolution only
depends on the trimmed URL, and `https://github.com/foo/bar.git.git`
resolves exactly like `https://github.com/foo/bar`. -/
theorem c10_git_suffix_trim_semantics :
    (∀ url : Str,
      RawFilesURL.fromRepoUrl url = RawFilesURL.fromRepoUrl (trimEnd gitSuf url)) ∧
    RawFilesURL.fromRepoUrl ghFooBarGitGit = some baseFooBar ∧
    RawFilesURL.fromRepoUrl ghFooBar = some baseFooBar := by
  refine ⟨fun url => ?_, by decide, by decide⟩
  have hg : gitSuf ≠ [] := by decide
  unfold RawFilesURL.fromRepoUrl
  rw [trimEnd_trimEnd hg]

/-- The `"No repo for crate {}!"` fallback string is never a recognized
host: it does not end with `.git` and starts with `N`, not `h`. -/
theorem fromRepoUrl_fallback_none (name : Str) :
    RawFilesURL.fromRepoUrl ("No repo for crate ".data ++ name ++ "!".data) = none := by
  have hsuf : hasSuffix gitSuf ("No repo for crate ".data ++ name ++ "!".data) = false := by
    unfold hasSuffix
    rw [show ("!".data : Str) = ['!'] from by decide]
    rw [List.reverse_append, List.reverse_append]
    rw [show (['!'] : Str).reverse = ['!'] from by decide]
    rw [List.singleton_append]
    rw [show gitSuf.reverse = 't' :: "ig.".data from by decide]
    simp only [hasPre]
    rw [show (('t' : Char) == '!') = false from by decide]
    simp
  have hN : ("No repo for crate ".data ++ name ++ "!".data : Str)
      = 'N' :: ("o repo for crate ".data ++ name ++ "!".data) := by
    rw [show ("No repo for crate ".data : Str) = 'N' :: "o repo for crate ".data
      from by decide]
    rw [List.cons_append, List.cons_append]
  have hgl : hasPre glPre ("No repo for crate ".data ++ name ++ "!".data) = false := by
    rw [hN, show (glPre : Str) = 'h' :: "ttps://gitlab.".data from by decide]
    simp only [hasPre]
    rw [show (('h' : Char) == 'N') = false from by decide]
    simp
  have hgh : hasPre ghPre ("No repo for crate ".data ++ name ++ "!".data) = false := by
    rw [hN, show (ghPre : Str) = 'h' :: "ttps://github.com/".data from by decide]
    simp only [hasPre]
    rw [show (('h' : Char) == 'N') = false from by decide]
    simp
  unfold RawFilesURL.fromRepoUrl
  rw [trimEnd_of_not_suffix hsuf]
  dsimp only
  rw [hgl, hgh]
  simp

/-- Claim C8: the `elem.repository.as_ref().unwrap()` in `get_license`'s
not-found report never panics: whenever `from_repo_url` applied to `main`'s
`repo_url` binding returns `Some` (the only condition under which
`get_license` is reached), the dependency's repository field is present,
because the `"No repo for crate {}!"` fallback used when it is absent
matches neither recognized host prefix. -/
theorem c8_repository_unwrap_never_panics (e : Elem)
    (h : (RawFilesURL.fromRepoUrl (repoUrlOf e)).isSome = true) :
    e.repository.isSome = true := by
  cases hrep : e.repository with
  | some r => rfl
  | none =>
    exfalso
    unfold repoUrlOf at h
    rw [hrep] at h
    rw [fromRepoUrl_fallback_none] at h
    simp at h

/-- Witness for C8 at a dependency whose repository resolves. -/
theorem c8_witness :
    (RawFilesURL.fromRepoUrl (repoUrlOf eBareGH)).isSome = true ∧
    eBareGH.repository.isSome = true :=
  ⟨by decide, c8_repository_unwrap_never_panics eBareGH (by decide)⟩

set_option maxHeartbeats 1600000 in
/-- An identifier classified `.noop` is exactly `"Unlicense"`. -/
theorem classify_noop_eq {l : Str} (h : classify l = .noop) : l = unlicenseS := by
  unfold classify at h
  by_cases h1 : l = apacheS ∨ l = "Apache-2.0 WITH LLVM-exception".data
  · rw [if_pos h1] at h; exact Action.noConfusion h
  rw [if_neg h1] at h
  by_cases h2 : l = "MIT".data
  · rw [if_pos h2] at h; exact Action.noConfusion h
  rw [if_neg h2] at h
  by_cases h3 : l = "BSD-3-Clause".data
  · rw [if_pos h3] at h; exact Action.noConfusion h
  rw [if_neg h3] at h
  by_cases h4 : l = "BSD-2-Clause".data
  · rw [if_pos h4] at h; exact Action.noConfusion h
  rw [if_neg h4] at h
  by_cases h5 : l = "0BSD".data
  · rw [if_pos h5] at h; exact Action.noConfusion h
  rw [if_neg h5] at h
  by_cases h6 : l = "CC0-1.0".data
  · rw [if_pos h6] at h; exact Action.noConfusion h
  rw [if_neg h6] at h
  by_cases h7 : l = "MPL-2.0".data
  · rw [if_pos h7] at h; exact Action.noConfusion h
  rw [if_neg h7] at h
  by_cases h8 : l = "BSD".data
  · rw [if_pos h8] at h; exact Action.noConfusion h
  rw [if_neg h8] at h
  by_cases h9 : l = "ISC".data
  · rw [if_pos h9] at h; exact Action.noConfusion h
  rw [if_neg h9] at h
  by_cases h10 : l = "BSL-1.0".data
  · rw [if_pos h10] at h; exact Action.noConfusion h
  rw [if_neg h10] at h
  by_cases h11 : l = "Zlib".data
  · rw [if_pos h11] at h; exact Action.noConfusion h
  rw [if_neg h11] at h
  by_cases h12 : l = unlicenseS
  · exact h12
  rw [if_neg h12] at h
  by_cases h13 : hasPre apacheS l = true
  · rw [if_pos h13] at h; exact Action.noConfusion h
  rw [if_neg h13] at h
  exact Action.noConfusion h

/-- An identifier with no table entry that is not `"Unlicense"` falls into
the final not-implemented arm. -/
theorem classify_notImpl_of {l : Str} (h1 : licenseTable l = none)
    (h2 : l ≠ unlicenseS) : classify l = .notImpl := by
  cases hc : classify l with
  | fetch ns =>
    simp only [licenseTable, hc] at h1
    exact Option.noConfusion h1
  | noop => exact absurd (classify_noop_eq hc) h2
  | notImpl => rfl

/-- Claim C7: an alternative whose identifier has no entry in the mapping
(and is not the deliberate `"Unlicense"` no-op) produces exactly one
not-implemented console line, triggers no `get_license` call and no network
request, and the loop over alternatives continues unchanged. -/
theorem c7_unknown_identifier_soft (net : Net) (e : Elem) (base : RawFilesURL)
    (repoUrl dir : Str) (l : Str) (ls : List Str) (fs : FS)
    (h1 : licenseTable l = none) (h2 : l ≠ unlicenseS) :
    runAlts net e base repoUrl dir (l :: ls) fs =
      ⟨(runAlts net e base repoUrl dir ls fs).calls,
       (runAlts net e base repoUrl dir ls fs).fs,
       (runAlts net e base repoUrl dir ls fs).requests,
       notImplLine l repoUrl :: (runAlts net e base repoUrl dir ls fs).lines,
       (runAlts net e base repoUrl dir ls fs).err⟩ := by
  have hc := classify_notImpl_of h1 h2
  simp only [runAlts, hc]

/-- Witness for C7 at the unknown identifier `Foo-9.9`. -/
theorem c7_witness :
    licenseTable fooNine = none ∧ fooNine ≠ unlicenseS ∧
    runAlts netFail eBareGH baseFooBar ghFooBar licDir (fooNine :: []) fs0 =
      ⟨(runAlts netFail eBareGH baseFooBar ghFooBar licDir [] fs0).calls,
       (runAlts netFail eBareGH baseFooBar ghFooBar licDir [] fs0).fs,
       (runAlts netFail eBareGH baseFooBar ghFooBar licDir [] fs0).requests,
       notImplLine fooNine ghFooBar ::
         (runAlts netFail eBareGH baseFooBar ghFooBar licDir [] fs0).lines,
       (runAlts netFail eBareGH baseFooBar ghFooBar licDir [] fs0).err⟩ :=
  ⟨by decide, by decide,
    c7_unknown_identifier_soft netFail eBareGH baseFooBar ghFooBar licDir
      fooNine [] fs0 (by decide) (by decide)⟩

/-- In the inner ref loop, a request answered with a success status is the
last request issued, and the loop reports its body as found. -/
theorem tryVersions_success_last (net : Net) (base : RawFilesURL) (fname : Str) :
    ∀ (vs : List Str) (i : Nat) (u body : Str),
      (tryVersions net base fname vs).2[i]? = some u →
      net u = NetResp.success body →
      (tryVersions net base fname vs).1 = .found body ∧
        i + 1 = (tryVersions net base fname vs).2.length := by
  intro vs
  induction vs with
  | nil => intro i u body hu hs; simp [tryVersions] at hu
  | cons v vs ih =>
    intro i u body hu hs
    cases hn : net (base.format v fname) with
    | success b =>
      simp only [tryVersions, hn] at hu ⊢
      cases i with
      | zero =>
        simp only [List.getElem?_cons_zero, Option.some.injEq] at hu
        subst hu
        rw [hn] at hs
        cases hs
        exact ⟨rfl, rfl⟩
      | succ j => simp at hu
    | httpFailure =>
      simp only [tryVersions, hn] at hu ⊢
      cases i with
      | zero =>
        simp only [List.getElem?_cons_zero, Option.some.injEq] at hu
        subst hu
        rw [hn] at hs
        exact NetResp.noConfusion hs
      | succ j =>
        simp only [List.getElem?_cons_succ] at hu
        obtain ⟨h1, h2⟩ := ih j u body hu hs
        refine ⟨h1, ?_⟩
        simp only [List.length_cons]
        omega
    | transportError =>
      simp only [tryVersions, hn] at hu ⊢
      cases i with
      | zero =>
        simp only [List.getElem?_cons_zero, Option.some.injEq] at hu
        subst hu
        rw [hn] at hs
        exact NetResp.noConfusion hs
      | succ j => simp at hu

/-- In the candidate-name loop, a request answered with a success status is
the last request issued, and the loop reports its body as found. -/
theorem tryNames_success_last (net : Net) (base : RawFilesURL) (versions : List Str) :
    ∀ (names : List Str) (i : Nat) (u body : Str),
      (tryNames net base versions names).2[i]? = some u →
      net u = NetResp.success body →
      (tryNames net base versions names).1 = .found body ∧
        i + 1 = (tryNames net base versions names).2.length := by
  intro names
  induction names with
  | nil => intro i u body hu hs; simp [tryNames] at hu
  | cons n ns ih =>
    intro i u body hu hs
    rcases htv : tryVersions net base n versions with ⟨o, rs⟩
    cases o with
    | found b =>
      simp only [tryNames, htv] at hu ⊢
      have hpair := tryVersions_success_last net base n versions i u body
        (by rw [htv]; exact hu) hs
      rw [htv] at hpair
      obtain ⟨h1, h2⟩ := hpair
      injection h1 with hb
      subst hb
      exact ⟨rfl, h2⟩
    | err =>
      simp only [tryNames, htv] at hu ⊢
      have hpair := tryVersions_success_last net base n versions i u body
        (by rw [htv]; exact hu) hs
      rw [htv] at hpair
      exact LoopOut.noConfusion hpair.1
    | exhausted =>
      simp only [tryNames, htv] at hu ⊢
      rw [List.getElem?_append] at hu
      by_cases hi : i < rs.length
      · rw [if_pos hi] at hu
        have hpair := tryVersions_success_last net base n versions i u body
          (by rw [htv]; exact hu) hs
        rw [htv] at hpair
        exact LoopOut.noConfusion hpair.1
      · rw [if_neg hi] at hu
        obtain ⟨h1, h2⟩ := ih (i - rs.length) u body hu hs
        refine ⟨h1, ?_⟩
        rw [List.length_append]
        omega

/-- Claim C2: once a `(filename, ref)` request is answered with a success
status, that request is the last one issued by this `get_license`
invocation (no later candidate is ever tried) and the response body is
written to the output path. -/
theorem c2_first_success_stops (net : Net) (e : Elem) (base : RawFilesURL)
    (license : List Str) (dir : Str) (fs : FS) (i : Nat) (u body : Str)
    (hu : (get_license net e base license dir fs).requests[i]? = some u)
    (hs : net u = NetResp.success body) :
    i + 1 = (get_license net e base license dir fs).requests.length ∧
    (get_license net e base license dir fs).fs (localPathOf e license dir) =
      some body ∧
    (get_license net e base license dir fs).ok = true := by
  cases ha : alreadyB fs (localPathOf e license dir) with
  | true => simp [get_license, ha] at hu
  | false =>
    rcases htn : tryNames net base (versionsOf e) (expandNames license) with ⟨o, rs⟩
    have hreq : (get_license net e base license dir fs).requests = rs := by
      cases o <;> simp [get_license, ha, htn]
    rw [hreq] at hu
    have hall := tryNames_success_last net base (versionsOf e) (expandNames license)
      i u body (by rw [htn]; exact hu) hs
    rw [htn] at hall
    obtain ⟨h1, h2⟩ := hall
    cases o with
    | found b =>
      injection h1 with hb
      subst hb
      refine ⟨by rw [hreq]; exact h2, ?_, ?_⟩
      · simp [get_license, ha, htn, setFile]
      · simp [get_license, ha, htn]
    | exhausted => exact LoopOut.noConfusion h1
    | err => exact LoopOut.noConfusion h1

/-- Witness for C2: on a network where every URL succeeds, the very first
candidate/ref request is the only one issued and its body is written. -/
theorem c2_witness :
    (get_license netUp eBareGH baseFooBar [ licenseName] licDir fs0).requests[0]? =
      some (baseFooBar.format masterRef licenseName) ∧
    netUp (baseFooBar.format masterRef licenseName) = NetResp.success ['m'] ∧
    (0 + 1 = (get_license netUp eBareGH baseFooBar [ licenseName] licDir fs0).requests.length ∧
     (get_license netUp eBareGH baseFooBar [ licenseName] licDir fs0).fs
        (localPathOf eBareGH [ licenseName] licDir) = some ['m'] ∧
     (get_license netUp eBareGH baseFooBar [ licenseName] licDir fs0).ok = true) :=
  ⟨by decide, by decide,
    c2_first_success_stops netUp eBareGH baseFooBar [ licenseName] licDir fs0 0
      (baseFooBar.format masterRef licenseName) ['m'] (by decide) (by decide)⟩

/-- The expanded candidate list has six entries per base name. -/
theorem flattenVariants_length (names : List Str) :
    ((names.map variants).flatten).length = 6 * names.length := by
  induction names with
  | nil => rfl
  | cons n ns ih =>
    simp only [List.map_cons, List.flatten_cons, List.length_append, ih]
    simp only [variants, List.length_cons, List.length_nil]
    omega

/-- Block structure of the expanded candidate list: the six variants of the
`i`-th base name occupy positions `6*i` through `6*i+5`. -/
theorem flattenVariants_getElem (names : List Str) :
    ∀ (i : Nat) (l : Str), names[i]? = some l →
      ∀ j : Nat, j < 6 →
        ((names.map variants).flatten)[6 * i + j]? = (variants l)[j]? := by
  induction names with
  | nil => intro i l hi; simp at hi
  | cons n ns ih =>
    intro i l hi j hj
    cases i with
    | zero =>
      simp only [List.getElem?_cons_zero, Option.some.injEq] at hi
      subst hi
      simp only [List.map_cons, List.flatten_cons]
      rw [List.getElem?_append]
      rw [if_pos]
      · norm_num
      · simp only [variants, List.length_cons, List.length_nil]
        omega
    | succ k =>
      simp only [List.getElem?_cons_succ] at hi
      simp only [List.map_cons, List.flatten_cons]
      rw [List.getElem?_append]
      have hlen : (variants n).length = 6 := by
        simp only [variants, List.length_cons, List.length_nil]
      rw [if_neg]
      · rw [hlen]
        have harith : 6 * (k + 1) + j - 6 = 6 * k + j := by omega
        rw [harith]
        exact ih k l hi j hj
      · rw [hlen]; omega

/-- Claim C4: the candidate expansion appends the generic default names
(unless the specific list already equals them) and expands every base name
into exactly six variants in the fixed order as-is, `.txt`, `.md`,
lower-case, lower `.txt`, lower `.md`.  The position equations pin the full
deterministic order: all variants of the `i`-th name precede all variants of
later names (so specific names precede the appended generic ones), within
one name and one case the no-extension form precedes `.txt` precedes `.md`,
and each original-case variant precedes the corresponding lower-case one. -/
theorem c4_candidate_expansion_order (license : List Str) (i : Nat) (l : Str)
    (hi : (if license = DEFAULT then license else license ++ DEFAULT)[i]? = some l) :
    (expandNames license).length =
      6 * (if license = DEFAULT then license else license ++ DEFAULT).length ∧
    (expandNames license)[6 * i]? = some l ∧
    (expandNames license)[6 * i + 1]? = some (l ++ txtExt) ∧
    (expandNames license)[6 * i + 2]? = some (l ++ mdExt) ∧
    (expandNames license)[6 * i + 3]? = some (lower l) ∧
    (expandNames license)[6 * i + 4]? = some (lower l ++ txtExt) ∧
    (expandNames license)[6 * i + 5]? = some (lower l ++ mdExt) := by
  unfold expandNames
  dsimp only
  refine ⟨flattenVariants_length _, ?_, ?_, ?_, ?_, ?_, ?_⟩
  · have := flattenVariants_getElem _ i l hi 0 (by omega)
    simpa [variants] using this
  · have := flattenVariants_getElem _ i l hi 1 (by omega)
    simpa [variants] using this
  · have := flattenVariants_getElem _ i l hi 2 (by omega)
    simpa [variants] using this
  · have := flattenVariants_getElem _ i l hi 3 (by omega)
    simpa [variants] using this
  · have := flattenVariants_getElem _ i l hi 4 (by omega)
    simpa [variants] using this
  · have := flattenVariants_getElem _ i l hi 5 (by omega)
    simpa [variants] using this

/-- Witness for C4: for the `MIT` table (which is not the default set), the
third base name of the appended list is the generic `LICENSE`, whose six
variants sit at positions 12 through 17. -/
theorem c4_witness :
    (if MIT = DEFAULT then MIT else MIT ++ DEFAULT)[2]? = some licenseName ∧
    ((expandNames MIT).length =
        6 * (if MIT = DEFAULT then MIT else MIT ++ DEFAULT).length ∧
     (expandNames MIT)[6 * 2]? = some licenseName ∧
     (expandNames MIT)[6 * 2 + 1]? = some (licenseName ++ txtExt) ∧
     (expandNames MIT)[6 * 2 + 2]? = some (licenseName ++ mdExt) ∧
     (expandNames MIT)[6 * 2 + 3]? = some (lower licenseName) ∧
     (expandNames MIT)[6 * 2 + 4]? = some (lower licenseName ++ txtExt) ∧
     (expandNames MIT)[6 * 2 + 5]? = some (lower licenseName ++ mdExt)) :=
  ⟨by decide, c4_candidate_expansion_order MIT 2 licenseName (by decide)⟩

set_option maxHeartbeats 1600000 in
/-- Every table handed to `get_license` by the identifier dispatch is one of
the ten static table constants. -/
theorem classify_fetch_mem {l : Str} {ns : List Str} (h : classify l = .fetch ns) :
    ns ∈ tablesRange := by
  unfold classify at h
  by_cases h1 : l = apacheS ∨ l = "Apache-2.0 WITH LLVM-exception".data
  · rw [if_pos h1] at h; injection h with h'; subst h'; decide
  rw [if_neg h1] at h
  by_cases h2 : l = "MIT".data
  · rw [if_pos h2] at h; injection h with h'; subst h'; decide
  rw [if_neg h2] at h
  by_cases h3 : l = "BSD-3-Clause".data
  · rw [if_pos h3] at h; injection h with h'; subst h'; decide
  rw [if_neg h3] at h
  by_cases h4 : l = "BSD-2-Clause".data
  · rw [if_pos h4] at h; injection h with h'; subst h'; decide
  rw [if_neg h4] at h
  by_cases h5 : l = "0BSD".data
  · rw [if_pos h5] at h; injection h with h'; subst h'; decide
  rw [if_neg h5] at h
  by_cases h6 : l = "CC0-1.0".data
  · rw [if_pos h6] at h; injection h with h'; subst h'; decide
  rw [if_neg h6] at h
  by_cases h7 : l = "MPL-2.0".data
  · rw [if_pos h7] at h; injection h with h'; subst h'; decide
  rw [if_neg h7] at h
  by_cases h8 : l = "BSD".data
  · rw [if_pos h8] at h; injection h with h'; subst h'; decide
  rw [if_neg h8] at h
  by_cases h9 : l = "ISC".data
  · rw [if_pos h9] at h; injection h with h'; subst h'; decide
  rw [if_neg h9] at h
  by_cases h10 : l = "BSL-1.0".data
  · rw [if_pos h10] at h; injection h with h'; subst h'; decide
  rw [if_neg h10] at h
  by_cases h11 : l = "Zlib".data
  · rw [if_pos h11] at h; injection h with h'; subst h'; decide
  rw [if_neg h11] at h
  by_cases h12 : l = unlicenseS
  · rw [if_pos h12] at h; exact Action.noConfusion h
  rw [if_neg h12] at h
  by_cases h13 : hasPre apacheS l = true
  · rw [if_pos h13] at h; injection h with h'; subst h'; decide
  rw [if_neg h13] at h
  exact Action.noConfusion h

/-- Every `get_license` call recorded by the alternative loop passes one of
the ten static tables. -/
theorem runAlts_call_mem (net : Net) (e : Elem) (base : RawFilesURL)
    (repoUrl dir : Str) :
    ∀ (alts : List Str) (fs : FS) (c : List Str × Bool),
      c ∈ (runAlts net e base repoUrl dir alts fs).calls → c.1 ∈ tablesRange := by
  intro alts
  induction alts with
  | nil => intro fs c hc; simp [runAlts] at hc
  | cons l ls ih =>
    intro fs c hc
    cases hcl : classify l with
    | fetch ns =>
      simp only [runAlts, hcl] at hc
      by_cases hok : (get_license net e base ns dir fs).ok = true
      · rw [if_pos hok] at hc
        simp only [List.mem_cons] at hc
        rcases hc with hc | hc
        · rw [hc]
          exact classify_fetch_mem hcl
        · exact ih _ c hc
      · rw [if_neg hok] at hc
        simp only [List.mem_singleton] at hc
        rw [hc]
        exact classify_fetch_mem hcl
    | noop =>
      simp only [runAlts, hcl] at hc
      exact ih _ c hc
    | notImpl =>
      simp only [runAlts, hcl] at hc
      exact ih _ c hc

/-- Claim C9: the `assert!(!license.is_empty())` at the top of `get_license`
holds at every call site: each call recorded by the per-dependency
processing receives a non-empty candidate list — every static table has at
least one entry, the explicit `license_file` case passes a one-element
slice, and the fallback passes the two-element `DEFAULT`. -/
theorem c9_candidate_list_never_empty (net : Net) (dir : Str) (e : Elem)
    (fs : FS) (c : List Str × Bool)
    (hc : c ∈ (processElem net dir e fs).calls) : c.1 ≠ [] := by
  unfold processElem at hc
  dsimp only at hc
  cases hurl : RawFilesURL.fromRepoUrl (repoUrlOf e) with
  | none => rw [hurl] at hc; simp at hc
  | some base =>
    rw [hurl] at hc
    cases hlic : e.license with
    | some lic =>
      rw [hlic] at hc
      have hmem := runAlts_call_mem net e base (repoUrlOf e) dir
        (splitAll orSep lic) fs c hc
      intro hnil
      rw [hnil] at hmem
      revert hmem
      decide
    | none =>
      rw [hlic] at hc
      cases hlf : e.license_file with
      | some lf =>
        rw [hlf] at hc
        simp only [List.mem_singleton] at hc
        rw [hc]
        simp
      | none =>
        rw [hlf] at hc
        simp only [List.mem_singleton] at hc
        rw [hc]
        show DEFAULT ≠ []
        decide

/-- Witness for C9: the fallback call with the `DEFAULT` table on a concrete
dependency record. -/
theorem c9_witness :
    ((DEFAULT, false) ∈ (processElem netFail licDir eBareGH fs0).calls) ∧
    ((DEFAULT, false) : List Str × Bool).1 ≠ [] :=
  ⟨by decide,
    c9_candidate_list_never_empty netFail licDir eBareGH fs0 (DEFAULT, false)
      (by decide)⟩

/-- A dependency whose processing raises a transport error ends the run:
the dependencies after it contribute nothing and the overall result carries
the error flag. -/
theorem mainRun_abort (net : Net) (dir : Str) (e : Elem) (es2 : List Elem) :
    ∀ (es1 : List Elem) (fs : FS),
      (mainRun net dir es1 fs).err = false →
      (processElem net dir e (mainRun net dir es1 fs).fs).err = true →
      mainRun net dir (es1 ++ e :: es2) fs =
        ⟨(mainRun net dir es1 fs).calls ++
           (processElem net dir e (mainRun net dir es1 fs).fs).calls,
         (processElem net dir e (mainRun net dir es1 fs).fs).fs,
         (mainRun net dir es1 fs).requests ++
           (processElem net dir e (mainRun net dir es1 fs).fs).requests,
         (mainRun net dir es1 fs).lines ++
           (processElem net dir e (mainRun net dir es1 fs).fs).lines,
         true⟩ := by
  intro es1
  induction es1 with
  | nil =>
    intro fs h1 h2
    simp only [mainRun, List.nil_append] at h2 ⊢
    rw [if_pos h2]
  | cons x xs ih =>
    intro fs h1 h2
    by_cases hx : (processElem net dir x fs).err = true
    · simp only [mainRun] at h1
      rw [if_pos hx] at h1
      exact absurd h1 (by simp)
    · have hm : mainRun net dir (x :: xs) fs =
        ⟨(processElem net dir x fs).calls ++
           (mainRun net dir xs (processElem net dir x fs).fs).calls,
         (mainRun net dir xs (processElem net dir x fs).fs).fs,
         (processElem net dir x fs).requests ++
           (mainRun net dir xs (processElem net dir x fs).fs).requests,
         (processElem net dir x fs).lines ++
           (mainRun net dir xs (processElem net dir x fs).fs).lines,
         (mainRun net dir xs (processElem net dir x fs).fs).err⟩ := by
        simp only [mainRun]
        rw [if_neg hx]
      rw [hm] at h1 h2
      dsimp only at h1 h2
      have hstep : mainRun net dir ((x :: xs) ++ e :: es2) fs =
        ⟨(processElem net dir x fs).calls ++
           (mainRun net dir (xs ++ e :: es2) (processElem net dir x fs).fs).calls,
         (mainRun net dir (xs ++ e :: es2) (processElem net dir x fs).fs).fs,
         (processElem net dir x fs).requests ++
           (mainRun net dir (xs ++ e :: es2) (processElem net dir x fs).fs).requests,
         (processElem net dir x fs).lines ++
           (mainRun net dir (xs ++ e :: es2) (processElem net dir x fs).fs).lines,
         (mainRun net dir (xs ++ e :: es2) (processElem net dir x fs).fs).err⟩ := by
        rw [List.cons_append]
        simp only [mainRun]
        rw [if_neg hx]
      rw [hstep, hm]
      rw [ih (processElem net dir x fs).fs h1 h2]
      simp [List.append_assoc]

/-- Claim C6: a transport-level network error is fatal for the whole run:
it propagates out of the per-dependency processing, aborts every remaining
dependency, and the process exits non-zero; by contrast a non-success HTTP
status only makes the loop move on to the next candidate, and only a
transport error stops the ref loop on the spot. -/
theorem c6_transport_error_fatal (net : Net) (dir : Str)
    (es1 : List Elem) (e : Elem) (es2 : List Elem) (fs : FS)
    (h1 : (mainRun net dir es1 fs).err = false)
    (h2 : (processElem net dir e (mainRun net dir es1 fs).fs).err = true) :
    (mainRun net dir (es1 ++ e :: es2) fs =
      ⟨(mainRun net dir es1 fs).calls ++
         (processElem net dir e (mainRun net dir es1 fs).fs).calls,
       (processElem net dir e (mainRun net dir es1 fs).fs).fs,
       (mainRun net dir es1 fs).requests ++
         (processElem net dir e (mainRun net dir es1 fs).fs).requests,
       (mainRun net dir es1 fs).lines ++
         (processElem net dir e (mainRun net dir es1 fs).fs).lines,
       true⟩) ∧
    (∀ (base : RawFilesURL) (fname v : Str) (vs : List Str),
      net (base.format v fname) = NetResp.httpFailure →
      tryVersions net base fname (v :: vs) =
        ((tryVersions net base fname vs).1,
         base.format v fname :: (tryVersions net base fname vs).2)) ∧
    (∀ (base : RawFilesURL) (fname v : Str) (vs : List Str),
      net (base.format v fname) = NetResp.transportError →
      tryVersions net base fname (v :: vs) = (.err, [ base.format v fname])) := by
  refine ⟨mainRun_abort net dir e es2 es1 fs h1 h2, ?_, ?_⟩
  · intro base fname v vs hn
    simp [tryVersions, hn]
  · intro base fname v vs hn
    simp [tryVersions, hn]

/-- Witness for C6: a network that always raises a transport error makes the
first dependency abort the run before the second is touched. -/
theorem c6_witness :
    (mainRun netDown licDir [] fs0).err = false ∧
    (processElem netDown licDir eMIT (mainRun netDown licDir [] fs0).fs).err = true ∧
    ((mainRun netDown licDir ([] ++ eMIT :: [ eBareGH]) fs0 =
      ⟨(mainRun netDown licDir [] fs0).calls ++
         (processElem netDown licDir eMIT (mainRun netDown licDir [] fs0).fs).calls,
       (processElem netDown licDir eMIT (mainRun netDown licDir [] fs0).fs).fs,
       (mainRun netDown licDir [] fs0).requests ++
         (processElem netDown licDir eMIT (mainRun netDown licDir [] fs0).fs).requests,
       (mainRun netDown licDir [] fs0).lines ++
         (processElem netDown licDir eMIT (mainRun netDown licDir [] fs0).fs).lines,
       true⟩) ∧
    (∀ (base : RawFilesURL) (fname v : Str) (vs : List Str),
      netDown (base.format v fname) = NetResp.httpFailure →
      tryVersions netDown base fname (v :: vs) =
        ((tryVersions netDown base fname vs).1,
         base.format v fname :: (tryVersions netDown base fname vs).2)) ∧
    (∀ (base : RawFilesURL) (fname v : Str) (vs : List Str),
      netDown (base.format v fname) = NetResp.transportError →
      tryVersions netDown base fname (v :: vs) = (.err, [ base.format v fname]))) :=
  ⟨by decide, by decide,
    c6_transport_error_fatal netDown licDir [] eMIT [ eBareGH] fs0
      (by decide) (by decide)⟩

/-- Under a network with no transport errors the ref loop never errors. -/
theorem tryVersions_ne_err (net : Net) (base : RawFilesURL) (fname : Str)
    (hnet : ∀ u, net u ≠ NetResp.transportError) :
    ∀ vs : List Str, (tryVersions net base fname vs).1 ≠ .err := by
  intro vs
  induction vs with
  | nil => simp [tryVersions]
  | cons v vs ih =>
    cases hn : net (base.format v fname) with
    | success b => simp [tryVersions, hn]
    | httpFailure => simpa [tryVersions, hn] using ih
    | transportError => exact absurd hn (hnet _)

/-- Under a network with no transport errors the candidate loop never
errors. -/
theorem tryNames_ne_err (net : Net) (base : RawFilesURL) (versions : List Str)
    (hnet : ∀ u, net u ≠ NetResp.transportError) :
    ∀ names : List Str, (tryNames net base versions names).1 ≠ .err := by
  intro names
  induction names with
  | nil => simp [tryNames]
  | cons n ns ih =>
    rcases htv : tryVersions net base n versions with ⟨o, rs⟩
    cases o with
    | found b => simp [tryNames, htv]
    | err =>
      exfalso
      have hne := tryVersions_ne_err net base n hnet versions
      rw [htv] at hne
      exact hne rfl
    | exhausted => simpa [tryNames, htv] using ih

/-- Characterization of `get_license` when no transport error can occur:
it returns `Ok`, its `success` flag is "file already there or the scan
finds a body", and it writes the found body (if any) at the output path of
a fresh file and nothing else. -/
theorem get_license_char (net : Net) (e : Elem) (base : RawFilesURL)
    (license : List Str) (dir : Str) (fs : FS)
    (hnet : ∀ u, net u ≠ NetResp.transportError) :
    (get_license net e base license dir fs).ok = true ∧
    (get_license net e base license dir fs).satisfied =
      (alreadyB fs (localPathOf e license dir) ||
        (tryNames net base (versionsOf e) (expandNames license)).1.isFound) ∧
    (get_license net e base license dir fs).fs =
      (if alreadyB fs (localPathOf e license dir) then fs
       else
         match (tryNames net base (versionsOf e) (expandNames license)).1 with
         | .found b => setFile fs (localPathOf e license dir) b
         | _ => fs) := by
  cases ha : alreadyB fs (localPathOf e license dir) with
  | true => refine ⟨?_, ?_, ?_⟩ <;> simp [get_license, ha]
  | false =>
    rcases htn : tryNames net base (versionsOf e) (expandNames license) with ⟨o, rs⟩
    cases o with
    | found b =>
      refine ⟨?_, ?_, ?_⟩ <;> simp [get_license, ha, htn, LoopOut.isFound]
    | exhausted =>
      refine ⟨?_, ?_, ?_⟩ <;> simp [get_license, ha, htn, LoopOut.isFound]
    | err =>
      exfalso
      have hne := tryNames_ne_err net base (versionsOf e) hnet (expandNames license)
      rw [htn] at hne
      exact hne rfl

/-- Among the ten dispatchable tables, the first entry determines the whole
table (`BSD2 = BSD3` and `CC0 = MPL_2` hold as values). -/
theorem tablesRange_head_inj :
    ∀ ns ∈ tablesRange, ∀ ms ∈ tablesRange,
      ns.headD [] = ms.headD [] → ns = ms := by decide

/-- Two output paths for the same dependency and directory agree only when
the leading candidate names agree. -/
theorem localPathOf_inj (e : Elem) (dir : Str) {ns ms : List Str}
    (h : localPathOf e ns dir = localPathOf e ms dir) :
    ns.headD [] = ms.headD [] := by
  unfold localPathOf at h
  exact List.append_cancel_left h

/-- Core of claim C5: as long as every alternative is dispatchable and the
network raises no transport error, the loop over alternatives performs one
`get_license` call per alternative, in order, passing the mapped table, and
each call's `success` flag equals the flag the call would produce on the
filesystem the loop started from. -/
theorem runAlts_known_calls (net : Net) (e : Elem) (base : RawFilesURL)
    (repoUrl dir : Str) (fs0 : FS)
    (hnet : ∀ u, net u ≠ NetResp.transportError) :
    ∀ (alts : List Str) (fs : FS),
      (∀ l ∈ alts, (licenseTable l).isSome = true) →
      ScanInv net e base dir fs0 fs →
      (runAlts net e base repoUrl dir alts fs).calls =
        alts.map (fun l =>
          ((licenseTable l).getD [],
           alreadyB fs0 (localPathOf e ((licenseTable l).getD []) dir) ||
             (tryNames net base (versionsOf e)
               (expandNames ((licenseTable l).getD []))).1.isFound)) ∧
      ScanInv net e base dir fs0 (runAlts net e base repoUrl dir alts fs).fs ∧
      (runAlts net e base repoUrl dir alts fs).err = false := by
  intro alts
  induction alts with
  | nil =>
    intro fs hk hinv
    exact ⟨rfl, hinv, rfl⟩
  | cons l ls ih =>
    intro fs hk hinv
    have hl : (licenseTable l).isSome = true := hk l (List.mem_cons_self l ls)
    have hks : ∀ x ∈ ls, (licenseTable x).isSome = true :=
      fun x hx => hk x (List.mem_cons_of_mem l hx)
    cases hcl : classify l with
    | noop => simp [licenseTable, hcl] at hl
    | notImpl => simp [licenseTable, hcl] at hl
    | fetch ns =>
      have htbl : licenseTable l = some ns := by simp [licenseTable, hcl]
      have hns : ns ∈ tablesRange := classify_fetch_mem hcl
      obtain ⟨hok, hsat, hfs⟩ := get_license_char net e base ns dir fs hnet
      have hinv' : ScanInv net e base dir fs0 (get_license net e base ns dir fs).fs := by
        rw [hfs]
        split
        · exact hinv
        · split
          · next b ho =>
            intro ms hms
            by_cases hpq : localPathOf e ms dir = localPathOf e ns dir
            · have hhd := localPathOf_inj e dir hpq
              have hmn : ms = ns := tablesRange_head_inj ms hms ns hns hhd
              subst hmn
              right
              exact ⟨b, ho, by simp [setFile, hpq]⟩
            · have hkeep : (setFile fs (localPathOf e ns dir) b) (localPathOf e ms dir)
                  = fs (localPathOf e ms dir) := by simp [setFile, hpq]
              rw [hkeep]
              exact hinv ms hms
          · next ho =>
            exact hinv
      simp only [runAlts, hcl]
      rw [if_pos hok]
      dsimp only
      obtain ⟨ih1, ih2, ih3⟩ := ih (get_license net e base ns dir fs).fs hks hinv'
      refine ⟨?_, ih2, ih3⟩
      rw [List.map_cons, ih1, htbl]
      simp only [Option.getD_some]
      congr 1
      rw [hsat]
      cases hf : (tryNames net base (versionsOf e) (expandNames ns)).1.isFound with
      | true => simp [hf]
      | false =>
        simp only [hf, Bool.or_false]
        rcases hinv ns hns with heq | ⟨b, hb, hval⟩
        · have halq : alreadyB fs (localPathOf e ns dir)
              = alreadyB fs0 (localPathOf e ns dir) := by
            unfold alreadyB
            rw [heq]
          rw [halq]
        · exfalso
          rw [hb] at hf
          simp [LoopOut.isFound] at hf

/-- Claim C5: for a dependency whose license expression splits into `k`
alternatives all present in the identifier mapping, processing the
dependency initiates exactly `k` fetch attempts (`get_license` calls), one
per alternative in written order, each passing the table the mapping
assigns to its alternative; and (absent transport errors) each attempt's
outcome equals the outcome `get_license` would produce for that alternative
alone on the dependency's initial filesystem — the attempts are independent
of each other's outcomes. -/
theorem c5_one_fetch_per_alternative (net : Net) (dir : Str) (e : Elem)
    (lic : Str) (base : RawFilesURL) (fs : FS)
    (hrepo : RawFilesURL.fromRepoUrl (repoUrlOf e) = some base)
    (hlic : e.license = some lic)
    (hnet : ∀ u, net u ≠ NetResp.transportError)
    (hknown : ∀ l ∈ splitAll orSep lic, (licenseTable l).isSome = true) :
    (processElem net dir e fs).calls =
      (splitAll orSep lic).map (fun l =>
        ((licenseTable l).getD [],
         (get_license net e base ((licenseTable l).getD []) dir fs).satisfied)) := by
  unfold processElem
  dsimp only
  rw [hrepo, hlic]
  obtain ⟨h1, h2, h3⟩ := runAlts_known_calls net e base (repoUrlOf e) dir fs hnet
    (splitAll orSep lic) fs hknown (fun ns _ => Or.inl rfl)
  rw [h1]
  apply List.map_congr_left
  intro l hl
  have hl' := hknown l hl
  cases hcl : classify l with
  | noop => simp [licenseTable, hcl] at hl'
  | notImpl => simp [licenseTable, hcl] at hl'
  | fetch ns =>
    have htbl : licenseTable l = some ns := by simp [licenseTable, hcl]
    rw [htbl]
    simp only [Option.getD_some]
    obtain ⟨hok, hsat, hfs⟩ := get_license_char net e base ns dir fs hnet
    rw [hsat]

/-- Witness for C5 at the two-alternative expression `MIT OR Zlib` on a
network of plain HTTP failures: exactly two calls, with the `MIT` and
`Zlib` tables, both unsatisfied. -/
theorem c5_witness :
    RawFilesURL.fromRepoUrl (repoUrlOf eMITZ) = some baseFooBar ∧
    eMITZ.license = some licMITZlib ∧
    (∀ l ∈ splitAll orSep licMITZlib, (licenseTable l).isSome = true) ∧
    (processElem netFail licDir eMITZ fs0).calls =
      (splitAll orSep licMITZlib).map (fun l =>
        ((licenseTable l).getD [],
         (get_license netFail eMITZ baseFooBar ((licenseTable l).getD [])
           licDir fs0).satisfied)) :=
  ⟨by decide, by decide, by decide,
    c5_one_fetch_per_alternative netFail licDir eMITZ licMITZlib baseFooBar fs0
      (by decide) (by decide) (fun u h => NetResp.noConfusion h) (by decide)⟩

end GLH
